import Mathlib

/-!
Formal model of the Amelie WhatsApp bot: the message-history store, the
prompt registry, the per-chat configuration resolver, the audio handler
guard, and the model-reply sanitizer, together with theorems about the
properties these components are specified to satisfy.

JavaScript strings are modelled as Lean strings (lists of characters);
the regular expressions used by the source are translated into explicit
character-list scanners.
-/

namespace Amelie

/-! ## String primitives modelling the JavaScript string operations -/

/-- Whitespace class used by the regexes' ASCII-range \s and by trim.
The source's JS \s also covers some rare Unicode space characters; the
model keeps the ASCII ones that occur in chat traffic. -/
def isJsWs (c : Char) : Bool :=
  decide (c = ' ') || decide (c = '\t') || decide (c = '\n') ||
    decide (c = '\r') || decide (c = '\x0b') || decide (c = '\x0c')

/-- ASCII digit, the regex class \d (no u flag). -/
def isAsciiDigit (c : Char) : Bool :=
  decide (48 ≤ c.toNat) && decide (c.toNat ≤ 57)

/-- The regex class [A-Z]. -/
def isUpperAZ (c : Char) : Bool :=
  decide (65 ≤ c.toNat) && decide (c.toNat ≤ 90)

/-- The regex word class \w = [A-Za-z0-9_] (ASCII, no u flag). -/
def isWordChar (c : Char) : Bool :=
  isUpperAZ c || (decide (97 ≤ c.toNat) && decide (c.toNat ≤ 122)) ||
    isAsciiDigit c || decide (c = '_')

/-- Does the literal pattern `p` occur at the head of `l`? -/
def litAt : List Char → List Char → Bool
  | [], _ => true
  | _ :: _, [] => false
  | p :: ps, c :: cs => if c = p then litAt ps cs else false

/-- Remove the literal pattern `p` from the head of `l`, returning the
remainder, or `none` when `l` does not start with `p`. -/
def dropLit : List Char → List Char → Option (List Char)
  | [], l => some l
  | _ :: _, [] => none
  | p :: ps, c :: cs => if c = p then dropLit ps cs else none

/-- Consume `\d+` (one or more ASCII digits, greedily) from the head. -/
def dropDigits1 (l : List Char) : Option (List Char) :=
  match l with
  | c :: cs => if isAsciiDigit c then some (cs.dropWhile isAsciiDigit) else none
  | [] => none

/-- Matcher for the anchored regex of geminiService.js line 102:
`^\[Importância: \d+\.\d+\]\s*`.  Returns the remainder after the match,
or `none` when the input does not start with the importance tag. -/
def parseImportanceTag (l : List Char) : Option (List Char) :=
  match dropLit "[Importância: ".data l with
  | none => none
  | some r1 =>
    match dropDigits1 r1 with
    | none => none
    | some r2 =>
      match r2 with
      | '.' :: r3 =>
        match dropDigits1 r3 with
        | none => none
        | some r4 =>
          match r4 with
          | ']' :: r5 => some (r5.dropWhile isJsWs)
          | _ => none
      | _ => none

/-- Matcher for the anchored regex of geminiService.js line 103:
`^\[User\d+\]:\s*`. -/
def parseUserTag (l : List Char) : Option (List Char) :=
  match dropLit "[User".data l with
  | none => none
  | some r1 =>
    match dropDigits1 r1 with
    | none => none
    | some r2 =>
      match r2 with
      | ']' :: ':' :: r3 => some (r3.dropWhile isJsWs)
      | _ => none

/-- `response.replace(/^\[Importância: \d+\.\d+\]\s*/, '')`. -/
def stripImportance (l : List Char) : List Char :=
  (parseImportanceTag l).getD l

/-- `sanitized.replace(/^\[User\d+\]:\s*/, '')`. -/
def stripUserEcho (l : List Char) : List Char :=
  (parseUserTag l).getD l

/-- Scanner for `[A-Z]+:`: after an uppercase letter already seen, accept
further uppercase letters until a colon. -/
def colonAfterUppers : List Char → Bool
  | [] => false
  | c :: rest => if c = ':' then true else if isUpperAZ c then colonAfterUppers rest else false

/-- Does a match of the split regex `Usuário:|Human:|[A-Z]+:` of
geminiService.js line 104 start at the head of `l`? -/
def speakerLabelAt (l : List Char) : Bool :=
  litAt "Usuário:".data l || litAt "Human:".data l ||
    (match l with
     | [] => false
     | c :: rest => isUpperAZ c && colonAfterUppers rest)

/-- `s.split(/Usuário:|Human:|[A-Z]+:/)[0]`: the text before the leftmost
match of the speaker-label regex (the whole string when there is none). -/
def splitBefore : List Char → List Char
  | [] => []
  | c :: rest => if speakerLabelAt (c :: rest) then [] else c :: splitBefore rest

/-- Does a speaker-label match occur anywhere in `l`? -/
def hasLabel : List Char → Bool
  | [] => false
  | c :: rest => speakerLabelAt (c :: rest) || hasLabel rest

/-- `String.prototype.trim`: strip whitespace from both ends. -/
def trimChars (l : List Char) : List Char :=
  ((l.dropWhile isJsWs).reverse.dropWhile isJsWs).reverse

/-- The fixed fallback of geminiService.js line 105. -/
def apologyMsg : String :=
  "Desculpe, não consegui gerar uma resposta adequada. Pode reformular sua pergunta?"

/-- The three transformation steps of `sanitizeResponse` before the
empty-result fallback: strip a leading importance tag, strip a leading
user echo, cut at the first speaker label and trim. -/
def sanitizeCore (l : List Char) : List Char :=
  trimChars (splitBefore (stripUserEcho (stripImportance l)))

/-- `sanitizeResponse` of geminiService.js lines 101-106, on char lists:
the pipeline result, or the apology when it is empty (JS `||` on the
empty string). -/
def sanitizeChars (l : List Char) : List Char :=
  if (sanitizeCore l).isEmpty then apologyMsg.data else sanitizeCore l

/-- `sanitizeResponse` on strings. -/
def sanitizeResponse (s : String) : String :=
  String.mk (sanitizeChars s.data)

/-- The emoji code-point ranges of the regex in `removeEmojis`
(part_000 lines 213-216). -/
def isEmojiChar (c : Char) : Bool :=
  let n := c.toNat
  (decide (0x1F600 ≤ n) && decide (n ≤ 0x1F64F)) ||
  (decide (0x1F300 ≤ n) && decide (n ≤ 0x1F5FF)) ||
  (decide (0x1F680 ≤ n) && decide (n ≤ 0x1F6FF)) ||
  (decide (0x1F1E0 ≤ n) && decide (n ≤ 0x1F1FF)) ||
  (decide (0x2600 ≤ n) && decide (n ≤ 0x26FF)) ||
  (decide (0x2700 ≤ n) && decide (n ≤ 0x27BF)) ||
  (decide (0x1F900 ≤ n) && decide (n ≤ 0x1F9FF)) ||
  (decide (0x1F018 ≤ n) && decide (n ≤ 0x1F0FF)) ||
  (decide (0x1F100 ≤ n) && decide (n ≤ 0x1F2FF))

/-- `removeEmojis` (part_000 lines 213-216): delete every character in the
emoji ranges (`replace(..., '')` with the g flag). -/
def removeEmojis (s : String) : String :=
  String.mk (s.data.filter (fun c => !isEmojiChar c))

/-! ## Lemmas about the sanitizer -/

theorem litAt_mono (p : List Char) :
    ∀ l t, litAt p l = true → litAt p (l ++ t) = true := by
  induction p with
  | nil => intro l t _; rfl
  | cons a as ih =>
    intro l t h
    cases l with
    | nil => simp [litAt] at h
    | cons c cs =>
      simp only [List.cons_append, litAt] at h ⊢
      split at h
      · next hc => rw [if_pos hc]; exact ih cs t h
      · exact absurd h (by simp)

theorem colonAfterUppers_mono :
    ∀ l t, colonAfterUppers l = true → colonAfterUppers (l ++ t) = true := by
  intro l
  induction l with
  | nil => intro t h; simp [colonAfterUppers] at h
  | cons c cs ih =>
    intro t h
    simp only [List.cons_append, colonAfterUppers] at h ⊢
    split at h
    · next hc => rw [if_pos hc]
    · next hc =>
      rw [if_neg hc]
      split at h
      · next hu => rw [if_pos hu]; exact ih t h
      · next hu => rw [if_neg hu]; exact h

theorem speakerLabelAt_nil : speakerLabelAt [] = false := rfl

theorem speakerLabelAt_mono (l t : List Char) (h : speakerLabelAt l = true) :
    speakerLabelAt (l ++ t) = true := by
  unfold speakerLabelAt at h ⊢
  simp only [Bool.or_eq_true] at h ⊢
  rcases h with (h | h) | h
  · exact Or.inl (Or.inl (litAt_mono _ _ _ h))
  · exact Or.inl (Or.inr (litAt_mono _ _ _ h))
  · cases l with
    | nil => simp at h
    | cons c cs =>
      simp only [Bool.and_eq_true] at h
      refine Or.inr ?_
      simp only [List.cons_append, Bool.and_eq_true]
      exact ⟨h.1, colonAfterUppers_mono _ _ h.2⟩

theorem splitBefore_pre (l : List Char) : ∃ t, l = splitBefore l ++ t := by
  induction l with
  | nil => exact ⟨[], rfl⟩
  | cons c cs ih =>
    by_cases h : speakerLabelAt (c :: cs) = true
    · exact ⟨c :: cs, by simp [splitBefore, h]⟩
    · obtain ⟨t, ht⟩ := ih
      refine ⟨t, ?_⟩
      simp only [splitBefore, if_neg h, List.cons_append]
      exact congrArg (c :: ·) ht

theorem hasLabel_splitBefore (l : List Char) : hasLabel (splitBefore l) = false := by
  induction l with
  | nil => rfl
  | cons c cs ih =>
    by_cases h : speakerLabelAt (c :: cs) = true
    · simp [splitBefore, h, hasLabel]
    · simp only [splitBefore, if_neg h, hasLabel, Bool.or_eq_false_iff]
      refine ⟨?_, ih⟩
      by_contra hx
      rw [Bool.not_eq_false] at hx
      obtain ⟨t, ht⟩ := splitBefore_pre cs
      have : speakerLabelAt ((c :: splitBefore cs) ++ t) = true :=
        speakerLabelAt_mono _ _ hx
      rw [List.cons_append, ← ht] at this
      exact h this

theorem hasLabel_iff (l : List Char) :
    hasLabel l = true ↔ ∃ n, speakerLabelAt (l.drop n) = true := by
  induction l with
  | nil =>
    simp only [hasLabel, List.drop_nil, speakerLabelAt_nil]
    constructor
    · intro h; exact absurd h (by simp)
    · rintro ⟨n, hn⟩; exact absurd hn (by simp)
  | cons c cs ih =>
    simp only [hasLabel, Bool.or_eq_true]
    constructor
    · rintro (h | h)
      · exact ⟨0, h⟩
      · obtain ⟨n, hn⟩ := ih.mp h
        exact ⟨n + 1, hn⟩
    · rintro ⟨n, hn⟩
      cases n with
      | zero => exact Or.inl hn
      | succ m => exact Or.inr (ih.mpr ⟨m, hn⟩)

theorem hasLabel_appendL (r t : List Char) (h : hasLabel r = true) :
    hasLabel (r ++ t) = true := by
  obtain ⟨n, hn⟩ := (hasLabel_iff r).mp h
  refine (hasLabel_iff (r ++ t)).mpr ⟨n, ?_⟩
  rw [List.drop_append_eq_append_drop]
  exact speakerLabelAt_mono _ _ hn

theorem hasLabel_drop (l : List Char) (n : Nat) (h : hasLabel (l.drop n) = true) :
    hasLabel l = true := by
  obtain ⟨m, hm⟩ := (hasLabel_iff _).mp h
  rw [List.drop_drop] at hm
  exact (hasLabel_iff l).mpr ⟨n + m, hm⟩

theorem hasLabel_dropWhile (p : Char → Bool) (l : List Char)
    (h : hasLabel (l.dropWhile p) = true) : hasLabel l = true := by
  induction l with
  | nil => simpa [List.dropWhile] using h
  | cons c cs ih =>
    rw [List.dropWhile_cons] at h
    split at h
    · have := ih h
      simp [hasLabel, this]
    · exact h

theorem trim_sub (l : List Char) :
    l.dropWhile isJsWs = trimChars l ++ ((l.dropWhile isJsWs).reverse.takeWhile isJsWs).reverse := by
  conv_lhs => rw [← (l.dropWhile isJsWs).reverse_reverse,
    ← List.takeWhile_append_dropWhile (p := isJsWs) (l := (l.dropWhile isJsWs).reverse)]
  rw [List.reverse_append]
  rfl

theorem hasLabel_trim (l : List Char) (h : hasLabel (trimChars l) = true) :
    hasLabel l = true := by
  have h2 : hasLabel (l.dropWhile isJsWs) = true := by
    rw [trim_sub l]
    exact hasLabel_appendL _ _ h
  exact hasLabel_dropWhile _ _ h2

theorem splitBefore_of_no (l : List Char) (h : hasLabel l = false) :
    splitBefore l = l := by
  induction l with
  | nil => rfl
  | cons c cs ih =>
    simp only [hasLabel, Bool.or_eq_false_iff] at h
    simp only [splitBefore, if_neg (by simp [h.1] : ¬speakerLabelAt (c :: cs) = true)]
    rw [ih h.2]

theorem dropWhile_idem (p : Char → Bool) (l : List Char) :
    (l.dropWhile p).dropWhile p = l.dropWhile p := by
  induction l with
  | nil => rfl
  | cons c cs ih =>
    cases hc : p c with
    | true => rw [List.dropWhile_cons, if_pos hc]; exact ih
    | false =>
      rw [List.dropWhile_cons, if_neg (by simp [hc]), List.dropWhile_cons,
        if_neg (by simp [hc])]

theorem dropWhile_cons_head (p : Char → Bool) (l : List Char) (c : Char) (cs : List Char)
    (h : l.dropWhile p = c :: cs) : p c = false := by
  induction l with
  | nil => simp [List.dropWhile] at h
  | cons a as ih =>
    rw [List.dropWhile_cons] at h
    split at h
    · exact ih h
    · next ha => cases h; simpa using ha

theorem trim_head_not_ws (l : List Char) (c : Char) (cs : List Char)
    (h : trimChars l = c :: cs) : isJsWs c = false := by
  have hsub := trim_sub l
  rw [h] at hsub
  refine dropWhile_cons_head isJsWs l c
    (cs ++ ((l.dropWhile isJsWs).reverse.takeWhile isJsWs).reverse) ?_
  conv_lhs => rw [hsub]
  simp

theorem trim_idem (l : List Char) : trimChars (trimChars l) = trimChars l := by
  have h1 : (trimChars l).dropWhile isJsWs = trimChars l := by
    cases hr : trimChars l with
    | nil => rfl
    | cons c cs =>
      have hpc := trim_head_not_ws l c cs hr
      rw [List.dropWhile_cons, if_neg (by simp [hpc])]
  have h2 : (trimChars l).reverse.dropWhile isJsWs = (trimChars l).reverse := by
    have hrev : (trimChars l).reverse = ((l.dropWhile isJsWs).reverse).dropWhile isJsWs := by
      unfold trimChars
      rw [List.reverse_reverse]
    rw [hrev, dropWhile_idem]
  calc trimChars (trimChars l)
      = (((trimChars l).dropWhile isJsWs).reverse.dropWhile isJsWs).reverse := rfl
    _ = ((trimChars l).reverse.dropWhile isJsWs).reverse := by rw [h1]
    _ = (trimChars l).reverse.reverse := by rw [h2]
    _ = trimChars l := List.reverse_reverse _

theorem trim_decomp (l : List Char) :
    ∃ t1 t2, l = t1 ++ trimChars l ++ t2 := by
  refine ⟨l.takeWhile isJsWs, ((l.dropWhile isJsWs).reverse.takeWhile isJsWs).reverse, ?_⟩
  conv_lhs => rw [← List.takeWhile_append_dropWhile (p := isJsWs) (l := l), trim_sub l]
  rw [List.append_assoc]

theorem hasLabel_sanitizeCore (l : List Char) : hasLabel (sanitizeCore l) = false := by
  cases h : hasLabel (sanitizeCore l) with
  | false => rfl
  | true =>
    exfalso
    unfold sanitizeCore at h
    have := hasLabel_trim _ h
    rw [hasLabel_splitBefore] at this
    exact Bool.false_ne_true this

theorem trim_sanitizeCore (l : List Char) :
    trimChars (sanitizeCore l) = sanitizeCore l := by
  unfold sanitizeCore
  exact trim_idem _

theorem sanitizeResponse_eq (s : String) :
    sanitizeResponse s =
      if (sanitizeCore s.data).isEmpty then apologyMsg
      else String.mk (sanitizeCore s.data) := by
  unfold sanitizeResponse sanitizeChars
  split
  · rfl
  · rfl

/-- Claim C2 counterexample: `sanitize` is not idempotent.  On the input
`"[User1]: [Importância: 1.0] hi"` the first pass removes only the user
echo (the importance-tag pass ran first and did not fire), leaving a
string that starts with an importance tag, which a second pass removes. -/
theorem C2_sanitize_not_idempotent :
    sanitizeResponse (sanitizeResponse "[User1]: [Importância: 1.0] hi")
      ≠ sanitizeResponse "[User1]: [Importância: 1.0] hi" := by
  decide

/-- Claim C2 (amended): `sanitize` is idempotent on every input whose
sanitized form does not itself begin with an importance-tag annotation or
a `[UserN]:` echo; the unrestricted claim fails (see the counterexample)
because stripping the user echo can expose a leading importance tag. -/
theorem C2_sanitize_idempotent_amended (s : String)
    (h1 : parseImportanceTag (sanitizeResponse s).data = none)
    (h2 : parseUserTag (sanitizeResponse s).data = none) :
    sanitizeResponse (sanitizeResponse s) = sanitizeResponse s := by
  cases hE : (sanitizeCore s.data).isEmpty with
  | true =>
    rw [sanitizeResponse_eq s, if_pos hE] at h1 h2 ⊢
    decide
  | false =>
    have hy : sanitizeResponse s = String.mk (sanitizeCore s.data) := by
      rw [sanitizeResponse_eq s, if_neg (by simp [hE])]
    have hdata : (sanitizeResponse s).data = sanitizeCore s.data := by rw [hy]
    rw [hdata] at h1 h2
    rw [hy]
    rw [sanitizeResponse_eq]
    have hsc : sanitizeCore (String.mk (sanitizeCore s.data)).data = sanitizeCore s.data := by
      show trimChars (splitBefore (stripUserEcho (stripImportance (sanitizeCore s.data))))
        = sanitizeCore s.data
      rw [stripImportance, h1, Option.getD_none, stripUserEcho, h2, Option.getD_none,
        splitBefore_of_no _ (hasLabel_sanitizeCore s.data)]
      exact trim_sanitizeCore s.data
    rw [hsc, if_neg (by simp [hE])]

/-- Witness for the amended C2 theorem at the concrete input `"Oi"`. -/
theorem C2_sanitize_idempotent_amended_witness :
    parseImportanceTag (sanitizeResponse "Oi").data = none ∧
      sanitizeResponse (sanitizeResponse "Oi") = sanitizeResponse "Oi" :=
  ⟨by decide, C2_sanitize_idempotent_amended "Oi" (by decide) (by decide)⟩

/-- Claim C5 counterexample: `sanitizeResponse` does NOT strip emoji
code-point ranges — emoji removal lives in the separate `removeEmojis`
function.  At `"Olá 😀"` the sanitizer returns the input unchanged,
emoji included, while `removeEmojis` deletes it. -/
theorem C5_sanitize_keeps_emoji :
    sanitizeResponse "Olá 😀" = "Olá 😀" ∧ isEmojiChar '😀' = true ∧
      removeEmojis "Olá 😀" = "Olá " := by
  refine ⟨by decide, by decide, by decide⟩

/-- Claim C5 (amended): for every string input, `sanitize` strips a
leading importance tag, then a leading `[UserN]:` echo, truncates at the
first speaker-label occurrence and trims whitespace — so its output
contains no speaker-label match and is a contiguous substring of the
tag-stripped input — and substitutes the fixed apology exactly when the
pipeline result is empty; the returned string is never empty.  Emoji
stripping is not part of `sanitize`; it is done by the separate
`removeEmojis` function.  The concrete conjuncts exercise each strip. -/
theorem C5_sanitize_pipeline_amended (s : String) :
    sanitizeResponse s ≠ "" ∧
    hasLabel (sanitizeResponse s).data = false ∧
    (sanitizeResponse s = apologyMsg ∨
      ∃ t1 t2, stripUserEcho (stripImportance s.data)
        = t1 ++ ((sanitizeResponse s).data ++ t2)) ∧
    sanitizeResponse "[Importância: 0.7] Olá" = "Olá" ∧
    sanitizeResponse "[User3]: Oi, tudo bem?" = "Oi, tudo bem?" ∧
    sanitizeResponse "Sim. ELE: não" = "Sim." ∧
    sanitizeResponse "" = apologyMsg := by
  refine ⟨?_, ?_, ?_, by decide, by decide, by decide, by decide⟩
  · cases hE : (sanitizeCore s.data).isEmpty with
    | true => rw [sanitizeResponse_eq s, if_pos hE]; decide
    | false =>
      rw [sanitizeResponse_eq s, if_neg (by simp [hE])]
      intro hcon
      have : sanitizeCore s.data = [] := by
        have := congrArg String.data hcon
        simpa using this
      rw [this] at hE
      simp [List.isEmpty] at hE
  · cases hE : (sanitizeCore s.data).isEmpty with
    | true => rw [sanitizeResponse_eq s, if_pos hE]; decide
    | false =>
      rw [sanitizeResponse_eq s, if_neg (by simp [hE])]
      exact hasLabel_sanitizeCore s.data
  · cases hE : (sanitizeCore s.data).isEmpty with
    | true => exact Or.inl (by rw [sanitizeResponse_eq s, if_pos hE])
    | false =>
      refine Or.inr ?_
      rw [sanitizeResponse_eq s, if_neg (by simp [hE])]
      obtain ⟨t, ht⟩ := splitBefore_pre (stripUserEcho (stripImportance s.data))
      obtain ⟨u1, u2, hu⟩ := trim_decomp (splitBefore (stripUserEcho (stripImportance s.data)))
      refine ⟨u1, u2 ++ t, ?_⟩
      show stripUserEcho (stripImportance s.data) = u1 ++ (sanitizeCore s.data ++ (u2 ++ t))
      conv_lhs => rw [ht, hu]
      unfold sanitizeCore
      simp [List.append_assoc]

/-! ## Message history (part_000: updateMessageHistory, getMessageHistory) -/

inductive MsgType where
  | user : MsgType
  | bot : MsgType
deriving DecidableEq, Repr

/-- One row of messages.db: `{chatId, sender, content, timestamp, type}`,
plus the store-assigned unique id `_id` used by the trim deletion. -/
structure Message where
  chatId : String
  sender : String
  content : String
  timestamp : Nat
  mtype : MsgType
  mid : Nat
deriving DecidableEq, Repr

/-- The query filter `{chatId: c, type: {$in: ['user','bot']}}`. -/
def msgSel (c : String) (m : Message) : Bool :=
  decide (m.chatId = c) &&
    (decide (m.mtype = MsgType.user) || decide (m.mtype = MsgType.bot))

/-- Insertion step of the timestamp-descending sort. -/
def insertTsDesc (m : Message) : List Message → List Message
  | [] => [m]
  | x :: xs => if x.timestamp ≤ m.timestamp then m :: x :: xs else x :: insertTsDesc m xs

/-- The store's `.sort({timestamp: -1})`: newest first. -/
def sortTsDesc : List Message → List Message
  | [] => []
  | x :: xs => insertTsDesc x (sortTsDesc xs)

/-- Rendering of one history line: `sender: content`. -/
def renderMsg (m : Message) : String := m.sender ++ ": " ++ m.content

/-- `getMessageHistory(chatId, limit = MAX_HISTORY)` (part_000 lines
512-522): matching rows sorted newest-first, limited to `limit * 2`,
reversed back to chronological order and rendered. -/
def getMessageHistory (db : List Message) (c : String) (limit : Nat) : List String :=
  (((sortTsDesc (db.filter (msgSel c))).take (limit * 2)).reverse).map renderMsg

/-- The messages collection together with a logical clock that produces
the `Date.now()` timestamps (strictly increasing across the sequential
inserts of one process) and the store-assigned unique ids. -/
structure MsgStore where
  db : List Message
  clock : Nat
deriving Repr

/-- `updateMessageHistory(chatId, sender, message, isBot)` (part_000
lines 564-590): insert one row, then delete every row of this chat
beyond the newest `MAX_HISTORY * 2` — the matching rows sorted
newest-first, `skip(MAX_HISTORY * 2)`, removed by id. -/
def updateMessageHistory (maxHistory : Nat) (st : MsgStore) (c sender content : String)
    (isBot : Bool) : MsgStore :=
  let m : Message :=
    ⟨c, sender, content, st.clock, if isBot then MsgType.bot else MsgType.user, st.clock⟩
  let db1 := st.db ++ [m]
  let removeIds :=
    ((sortTsDesc (db1.filter (msgSel c))).drop (maxHistory * 2)).map Message.mid
  ⟨db1.filter (fun d => !(decide (d.mid ∈ removeIds))), st.clock + 1⟩

/-- `resetHistory(chatId)` (part_000 lines 592-599). -/
def resetHistory (st : MsgStore) (c : String) : MsgStore :=
  ⟨st.db.filter (fun x => !(msgSel c x)), st.clock⟩

/-- One append request: the arguments of one `updateMessageHistory` call. -/
structure AppendOp where
  chatId : String
  sender : String
  content : String
  isBot : Bool
deriving DecidableEq, Repr

/-- The row an append op produces at logical time `t`. -/
def mkMsg (op : AppendOp) (t : Nat) : Message :=
  ⟨op.chatId, op.sender, op.content, t, if op.isBot then MsgType.bot else MsgType.user, t⟩

/-- The rows a sequence of appends produces, timestamped from `t` on. -/
def opsMsgs : List AppendOp → Nat → List Message
  | [], _ => []
  | op :: rest, t => mkMsg op t :: opsMsgs rest (t + 1)

/-- Run a sequence of appends against an initially empty store. -/
def runAppends (maxHistory : Nat) (ops : List AppendOp) : MsgStore :=
  ops.foldl
    (fun st op => updateMessageHistory maxHistory st op.chatId op.sender op.content op.isBot)
    ⟨[], 0⟩

/-- Strictly ascending timestamps. -/
abbrev tsAsc (l : List Message) : Prop :=
  l.Pairwise fun a b => a.timestamp < b.timestamp

/-! ## Lemmas about the history store -/

theorem rtake_all {α : Type} (n : Nat) (l : List α) (h : l.length ≤ n) :
    l.rtake n = l := by
  show l.drop (l.length - n) = l
  rw [Nat.sub_eq_zero_of_le h, List.drop_zero]

theorem rtake_length_le {α : Type} (n : Nat) (l : List α) : (l.rtake n).length ≤ n := by
  show (l.drop (l.length - n)).length ≤ n
  rw [List.length_drop]
  omega

theorem rtake_append_rtake {α : Type} (k : Nat) (a b : List α) :
    (a.rtake k ++ b).rtake k = (a ++ b).rtake k := by
  rw [List.rtake_eq_reverse_take_reverse, List.rtake_eq_reverse_take_reverse,
    List.rtake_eq_reverse_take_reverse, List.reverse_append, List.reverse_append,
    List.reverse_reverse, List.take_append_eq_append_take, List.take_append_eq_append_take,
    List.take_take, List.length_reverse, Nat.min_eq_left (Nat.sub_le _ _)]

theorem tsAsc_inj (l : List Message) (h : tsAsc l) :
    ∀ {a b : Message}, a ∈ l → b ∈ l → a.timestamp = b.timestamp → a = b := by
  induction l with
  | nil => intro a b ha; simp at ha
  | cons x xs ih =>
    have h' := List.pairwise_cons.mp h
    intro a b ha hb hab
    rcases List.mem_cons.mp ha with rfl | ha' <;> rcases List.mem_cons.mp hb with rfl | hb'
    · rfl
    · exact absurd hab (by have := h'.1 b hb'; omega)
    · exact absurd hab (by have := h'.1 a ha'; omega)
    · exact ih h'.2 ha' hb' hab

theorem msgSel_iff (c : String) (m : Message) : msgSel c m = true ↔ m.chatId = c := by
  cases h : m.mtype <;> simp [msgSel, h]

theorem insertTsDesc_end (m : Message) (l : List Message)
    (h : ∀ y ∈ l, m.timestamp < y.timestamp) : insertTsDesc m l = l ++ [m] := by
  induction l with
  | nil => rfl
  | cons x xs ih =>
    have hx := h x (by simp)
    rw [insertTsDesc, if_neg (by omega)]
    rw [ih (fun y hy => h y (by simp [hy]))]
    simp

theorem sortTsDesc_of_asc (l : List Message) (h : tsAsc l) : sortTsDesc l = l.reverse := by
  induction l with
  | nil => rfl
  | cons x xs ih =>
    have h' := List.pairwise_cons.mp h
    rw [sortTsDesc, ih h'.2,
      insertTsDesc_end x _ (fun y hy => h'.1 y (List.mem_reverse.mp hy))]
    simp

theorem getMessageHistory_eq (db : List Message) (c : String) (limit : Nat)
    (h : tsAsc (db.filter (msgSel c))) :
    getMessageHistory db c limit
      = ((db.filter (msgSel c)).rtake (limit * 2)).map renderMsg := by
  unfold getMessageHistory
  rw [sortTsDesc_of_asc _ h]
  congr 1
  exact (List.rtake_eq_reverse_take_reverse _ _).symm

theorem trim_core (k : Nat) (db1 : List Message) (c : String)
    (hA : tsAsc db1) (hI : ∀ x ∈ db1, x.mid = x.timestamp) :
    ((db1.filter (fun d => !(decide (d.mid ∈
        ((sortTsDesc (db1.filter (msgSel c))).drop k).map Message.mid)))).filter (msgSel c)
      = (db1.filter (msgSel c)).rtake k) ∧
    (∀ c', c' ≠ c →
      (db1.filter (fun d => !(decide (d.mid ∈
        ((sortTsDesc (db1.filter (msgSel c))).drop k).map Message.mid)))).filter (msgSel c')
      = db1.filter (msgSel c')) := by
  have hAscL : tsAsc (db1.filter (msgSel c)) :=
    List.Pairwise.sublist (List.filter_sublist db1) hA
  have hR : ((sortTsDesc (db1.filter (msgSel c))).drop k).map Message.mid
      = (((db1.filter (msgSel c)).rdrop k).reverse).map Message.mid := by
    rw [sortTsDesc_of_asc _ hAscL, List.rdrop_eq_reverse_drop_reverse, List.reverse_reverse]
  have hsplit : (db1.filter (msgSel c)).rdrop k ++ (db1.filter (msgSel c)).rtake k
      = db1.filter (msgSel c) := List.take_append_drop _ _
  -- membership in the removal set characterised on rows of db1
  have key1 : ∀ x ∈ db1,
      (x.mid ∈ ((sortTsDesc (db1.filter (msgSel c))).drop k).map Message.mid
        ↔ x ∈ (db1.filter (msgSel c)).rdrop k) := by
    intro x hx
    rw [hR]
    simp only [List.mem_map, List.mem_reverse]
    constructor
    · rintro ⟨a, ha, hamid⟩
      have haL : a ∈ db1.filter (msgSel c) :=
        (List.take_sublist _ _).subset ha
      have ha1 : a ∈ db1 := (List.filter_sublist db1).subset haL
      have heq : a = x := tsAsc_inj db1 hA ha1 hx (by rw [← hI a ha1, ← hI x hx, hamid])
      exact heq ▸ ha
    · intro hxr
      exact ⟨x, hxr, rfl⟩
  have key2 : ∀ x, x ∈ (db1.filter (msgSel c)).rdrop k →
      x ∈ (db1.filter (msgSel c)).rtake k → False := by
    intro x h1 h2
    have hp : List.Pairwise (fun a b => a.timestamp < b.timestamp)
        ((db1.filter (msgSel c)).rdrop k ++ (db1.filter (msgSel c)).rtake k) := by
      rw [hsplit]; exact hAscL
    have := (List.pairwise_append.mp hp).2.2 x h1 x h2
    omega
  have hswap : db1.filter (fun a => msgSel c a &&
      !(decide (a.mid ∈ ((sortTsDesc (db1.filter (msgSel c))).drop k).map Message.mid)))
      = ((db1.filter (msgSel c)).rdrop k).filter (fun d => !(decide (d.mid ∈
          ((sortTsDesc (db1.filter (msgSel c))).drop k).map Message.mid)))
        ++ ((db1.filter (msgSel c)).rtake k).filter (fun d => !(decide (d.mid ∈
          ((sortTsDesc (db1.filter (msgSel c))).drop k).map Message.mid))) := by
    rw [← List.filter_append, hsplit, List.filter_filter]
    exact (List.filter_congr (fun x _ => Bool.and_comm _ _)).symm
  have h1 : ((db1.filter (msgSel c)).rdrop k).filter (fun d => !(decide (d.mid ∈
      ((sortTsDesc (db1.filter (msgSel c))).drop k).map Message.mid))) = [] := by
    rw [List.filter_eq_nil_iff]
    intro x hx
    have hx1 : x ∈ db1 :=
      (List.filter_sublist db1).subset ((List.take_sublist _ _).subset hx)
    intro hcon
    rw [Bool.not_eq_true'] at hcon
    exact (decide_eq_false_iff_not.mp hcon) ((key1 x hx1).mpr hx)
  have h2 : ((db1.filter (msgSel c)).rtake k).filter (fun d => !(decide (d.mid ∈
      ((sortTsDesc (db1.filter (msgSel c))).drop k).map Message.mid)))
      = (db1.filter (msgSel c)).rtake k := by
    rw [List.filter_eq_self]
    intro x hx
    have hx1 : x ∈ db1 :=
      (List.filter_sublist db1).subset ((List.drop_sublist _ _).subset hx)
    rw [Bool.not_eq_true', decide_eq_false_iff_not]
    intro hP
    exact key2 x ((key1 x hx1).mp hP) hx
  constructor
  · rw [List.filter_filter, hswap, h1, h2, List.nil_append]
  · intro c' hc'
    rw [List.filter_filter]
    apply List.filter_congr
    intro x hx
    cases hsel : msgSel c' x with
    | false => simp [hsel]
    | true =>
      simp only [hsel, Bool.true_and]
      rw [Bool.not_eq_true', decide_eq_false_iff_not]
      intro hP
      have hxA := (key1 x hx).mp hP
      have hxL : x ∈ db1.filter (msgSel c) :=
        (List.take_sublist _ _).subset hxA
      have hcc : x.chatId = c := (msgSel_iff c x).mp (List.of_mem_filter hxL)
      have hcc' : x.chatId = c' := (msgSel_iff c' x).mp hsel
      exact hc' (hcc'.symm.trans hcc)

theorem opsMsgs_ts_ge (ops : List AppendOp) (t : Nat) :
    ∀ x ∈ opsMsgs ops t, t ≤ x.timestamp := by
  induction ops generalizing t with
  | nil => intro x hx; simp [opsMsgs] at hx
  | cons op rest ih =>
    intro x hx
    rcases List.mem_cons.mp hx with rfl | hx'
    · exact Nat.le_refl _
    · exact Nat.le_of_succ_le (ih (t + 1) x hx')

theorem opsMsgs_asc (ops : List AppendOp) (t : Nat) : tsAsc (opsMsgs ops t) := by
  induction ops generalizing t with
  | nil => exact List.Pairwise.nil
  | cons op rest ih =>
    rw [opsMsgs]
    exact List.pairwise_cons.mpr
      ⟨fun y hy => Nat.lt_of_succ_le (opsMsgs_ts_ge rest (t + 1) y hy), ih (t + 1)⟩

theorem runAppends_aux (L : Nat) (ops : List AppendOp) (st : MsgStore)
    (hA : tsAsc st.db) (hB : ∀ x ∈ st.db, x.timestamp < st.clock)
    (hI : ∀ x ∈ st.db, x.mid = x.timestamp)
    (hL : ∀ c, (st.db.filter (msgSel c)).length ≤ L * 2) :
    tsAsc (ops.foldl (fun s op =>
        updateMessageHistory L s op.chatId op.sender op.content op.isBot) st).db ∧
    ((ops.foldl (fun s op =>
        updateMessageHistory L s op.chatId op.sender op.content op.isBot) st).clock
      = st.clock + ops.length) ∧
    ∀ c, (ops.foldl (fun s op =>
        updateMessageHistory L s op.chatId op.sender op.content op.isBot) st).db.filter (msgSel c)
      = (st.db.filter (msgSel c) ++ (opsMsgs ops st.clock).filter (msgSel c)).rtake (L * 2) := by
  induction ops generalizing st with
  | nil =>
    refine ⟨hA, by simp, fun c => ?_⟩
    simp only [List.foldl_nil, opsMsgs, List.filter_nil, List.append_nil]
    exact (rtake_all _ _ (hL c)).symm
  | cons op rest ih =>
    -- the inserted row
    have hm : mkMsg op st.clock =
        ⟨op.chatId, op.sender, op.content, st.clock,
          if op.isBot then MsgType.bot else MsgType.user, st.clock⟩ := rfl
    -- facts about the intermediate store
    have hdb1A : tsAsc (st.db ++ [mkMsg op st.clock]) := by
      refine List.pairwise_append.mpr ⟨hA, by simp, fun a ha b hb => ?_⟩
      rw [List.mem_singleton.mp hb]
      exact hB a ha
    have hdb1I : ∀ x ∈ st.db ++ [mkMsg op st.clock], x.mid = x.timestamp := by
      intro x hx
      rcases List.mem_append.mp hx with hx' | hx'
      · exact hI x hx'
      · rw [List.mem_singleton.mp hx']
        rfl
    have htrim := trim_core (L * 2) (st.db ++ [mkMsg op st.clock]) op.chatId hdb1A hdb1I
    set st1 := updateMessageHistory L st op.chatId op.sender op.content op.isBot with hst1
    have hst1db : st1.db = (st.db ++ [mkMsg op st.clock]).filter
        (fun d => !(decide (d.mid ∈
          ((sortTsDesc ((st.db ++ [mkMsg op st.clock]).filter (msgSel op.chatId))).drop
            (L * 2)).map Message.mid))) := rfl
    have hst1clock : st1.clock = st.clock + 1 := rfl
    have hfilter1 : ∀ c, st1.db.filter (msgSel c)
        = if c = op.chatId
          then (st.db.filter (msgSel c) ++ [mkMsg op st.clock]).rtake (L * 2)
          else st.db.filter (msgSel c) := by
      intro c
      by_cases hc : c = op.chatId
      · subst hc
        rw [if_pos rfl, hst1db, htrim.1, List.filter_append]
        have hmt : msgSel op.chatId (mkMsg op st.clock) = true := (msgSel_iff _ _).mpr rfl
        rw [List.filter_cons, if_pos hmt, List.filter_nil]
      · rw [if_neg hc, hst1db, htrim.2 c hc, List.filter_append]
        have hmf : msgSel c (mkMsg op st.clock) = false := by
          cases h2 : msgSel c (mkMsg op st.clock) with
          | false => rfl
          | true => exact absurd ((msgSel_iff c _).mp h2).symm hc
        rw [List.filter_cons, if_neg (by simp [hmf]), List.filter_nil, List.append_nil]
    have hA1 : tsAsc st1.db := by
      rw [hst1db]
      exact List.Pairwise.sublist (List.filter_sublist _) hdb1A
    have hB1 : ∀ x ∈ st1.db, x.timestamp < st1.clock := by
      intro x hx
      rw [hst1db] at hx
      have hx1 := (List.filter_sublist _).subset hx
      rw [hst1clock]
      rcases List.mem_append.mp hx1 with hx' | hx'
      · exact Nat.lt_succ_of_lt (hB x hx')
      · rw [List.mem_singleton.mp hx']
        exact Nat.lt_succ_self _
    have hI1 : ∀ x ∈ st1.db, x.mid = x.timestamp := by
      intro x hx
      rw [hst1db] at hx
      exact hdb1I x ((List.filter_sublist _).subset hx)
    have hL1 : ∀ c, (st1.db.filter (msgSel c)).length ≤ L * 2 := by
      intro c
      rw [hfilter1 c]
      by_cases hc : c = op.chatId
      · rw [if_pos hc]; exact rtake_length_le _ _
      · rw [if_neg hc]; exact hL c
    obtain ⟨hrA, hrC, hrF⟩ := ih st1 hA1 hB1 hI1 hL1
    rw [List.foldl_cons]
    refine ⟨hrA, ?_, fun c => ?_⟩
    · rw [hrC, hst1clock, List.length_cons]; omega
    · rw [hrF c, hfilter1 c, hst1clock]
      by_cases hc : c = op.chatId
      · subst hc
        rw [if_pos rfl, rtake_append_rtake, List.append_assoc]
        congr 1
        congr 1
        have hmt : msgSel op.chatId (mkMsg op st.clock) = true := (msgSel_iff _ _).mpr rfl
        rw [opsMsgs, List.filter_cons, if_pos hmt, List.singleton_append]
      · rw [if_neg hc]
        congr 1
        congr 1
        have hmf : msgSel c (mkMsg op st.clock) = false := by
          cases h2 : msgSel c (mkMsg op st.clock) with
          | false => rfl
          | true => exact absurd ((msgSel_iff c _).mp h2).symm hc
        rw [opsMsgs, List.filter_cons, if_neg (by simp [hmf])]

theorem runAppends_filter (L : Nat) (ops : List AppendOp) (c : String) :
    (runAppends L ops).db.filter (msgSel c)
      = ((opsMsgs ops 0).filter (msgSel c)).rtake (L * 2) := by
  have h := runAppends_aux L ops ⟨[], 0⟩ List.Pairwise.nil (by simp) (by simp) (by simp)
  have h2 := h.2.2 c
  simpa using h2

/-- Claim C1: for every pair-limit L and every sequence of appends run
against the store, immediately afterwards the store retains at most
`2 L` rows for each chat; the retained rows are exactly the newest
`2 L` rows ever appended for that chat (so every deleted row is older by
timestamp than every retained one); and a subsequent read returns at most
`2 L` lines, which are the most recent ones in chronological order. -/
theorem C1_history_bounded_trim_read (L : Nat) (ops : List AppendOp) (c : String) :
    ((runAppends L ops).db.filter (msgSel c)).length ≤ L * 2 ∧
    (runAppends L ops).db.filter (msgSel c)
      = ((opsMsgs ops 0).filter (msgSel c)).rtake (L * 2) ∧
    (∀ x ∈ (opsMsgs ops 0).filter (msgSel c),
      x ∉ (runAppends L ops).db.filter (msgSel c) →
      ∀ y ∈ (runAppends L ops).db.filter (msgSel c), x.timestamp < y.timestamp) ∧
    getMessageHistory (runAppends L ops).db c L
      = (((opsMsgs ops 0).filter (msgSel c)).rtake (L * 2)).map renderMsg := by
  have hf := runAppends_filter L ops c
  have hE : tsAsc ((opsMsgs ops 0).filter (msgSel c)) :=
    List.Pairwise.sublist (List.filter_sublist _) (opsMsgs_asc ops 0)
  refine ⟨?_, hf, ?_, ?_⟩
  · rw [hf]; exact rtake_length_le _ _
  · intro x hxE hxR y hyR
    rw [hf] at hxR hyR
    have hsplit : ((opsMsgs ops 0).filter (msgSel c)).rdrop (L * 2)
        ++ ((opsMsgs ops 0).filter (msgSel c)).rtake (L * 2)
        = (opsMsgs ops 0).filter (msgSel c) := List.take_append_drop _ _
    have hxA : x ∈ ((opsMsgs ops 0).filter (msgSel c)).rdrop (L * 2) := by
      have hx2 := hxE
      rw [← hsplit] at hx2
      rcases List.mem_append.mp hx2 with h | h
      · exact h
      · exact absurd h hxR
    have hp : List.Pairwise (fun a b => a.timestamp < b.timestamp)
        (((opsMsgs ops 0).filter (msgSel c)).rdrop (L * 2)
          ++ ((opsMsgs ops 0).filter (msgSel c)).rtake (L * 2)) := by
      rw [hsplit]; exact hE
    exact (List.pairwise_append.mp hp).2.2 x hxA y hyR
  · have hAsc : tsAsc ((runAppends L ops).db.filter (msgSel c)) := by
      rw [hf]
      exact List.Pairwise.sublist (List.drop_sublist _ _) hE
    rw [getMessageHistory_eq _ _ _ hAsc, hf, rtake_all]
    exact rtake_length_le _ _

/-- Claim C4: for every reachable store, `read(chatId, limit)` returns
the newest `2 × limit` stored rows for that chat restored to
chronological (oldest-first) order, each rendered as `sender: content`;
in particular the two-append scenario with limit 500 returns exactly
`["alice: hi", "Amelie: hello"]`. -/
theorem C4_read_newest_chronological (L limit : Nat) (ops : List AppendOp) (c : String) :
    (getMessageHistory (runAppends L ops).db c limit
      = (((runAppends L ops).db.filter (msgSel c)).rtake (limit * 2)).map renderMsg) ∧
    getMessageHistory (runAppends 500 [⟨"chat1", "alice", "hi", false⟩,
        ⟨"chat1", "Amelie", "hello", true⟩]).db "chat1" 500
      = ["alice: hi", "Amelie: hello"] := by
  constructor
  · have hE : tsAsc ((opsMsgs ops 0).filter (msgSel c)) :=
      List.Pairwise.sublist (List.filter_sublist _) (opsMsgs_asc ops 0)
    have hAsc : tsAsc ((runAppends L ops).db.filter (msgSel c)) := by
      rw [runAppends_filter L ops c]
      exact List.Pairwise.sublist (List.drop_sublist _ _) hE
    exact getMessageHistory_eq _ _ _ hAsc
  · decide

/-! ## Prompt registry (part_000: setSystemPrompt, getSystemPrompt) -/

/-- One row of prompts.db: `{chatId, name, text}`. -/
structure Prompt where
  chatId : String
  name : String
  text : String
deriving DecidableEq, Repr

/-- nedb `update({chatId, name}, doc, {upsert: true})`: replace the
first document matching the key, or insert at the end. -/
def upsertPrompt : List Prompt → Prompt → List Prompt
  | [], p => [p]
  | q :: rest, p =>
    if q.chatId = p.chatId ∧ q.name = p.name then p :: rest else q :: upsertPrompt rest p

/-- `setSystemPrompt(chatId, name, text)` (part_000 lines 699-707):
upsert `{chatId, name, text: "Seu nome é <name>. <text>"}` keyed by
`(chatId, name)`. -/
def setSystemPrompt (db : List Prompt) (chatId nm text : String) : List Prompt :=
  upsertPrompt db ⟨chatId, nm, "Seu nome é " ++ nm ++ ". " ++ text⟩

/-- `getSystemPrompt(chatId, name)` (part_000 lines 709-716): findOne by
`{chatId, name}`. -/
def getSystemPrompt (db : List Prompt) (chatId nm : String) : Option Prompt :=
  db.find? (fun p => decide (p.chatId = chatId ∧ p.name = nm))

/-! ## Per-chat configuration (part_000: setConfig, getConfig) -/

/-- JavaScript values stored in config.db fields.  Numbers are modelled
as exact rationals: the source stores and compares them but performs no
arithmetic on them that could exercise float rounding. -/
inductive JsVal where
  | num : Rat → JsVal
  | str : String → JsVal
  | bool : Bool → JsVal
  | null : JsVal
deriving DecidableEq, Repr

/-- JavaScript truthiness of a stored value. -/
def jsTruthy : JsVal → Bool
  | JsVal.num q => decide (q ≠ 0)
  | JsVal.str s => decide (s ≠ "")
  | JsVal.bool b => b
  | JsVal.null => false

/-- Truthiness of a possibly absent (undefined) field. -/
def jsTruthyOpt : Option JsVal → Bool
  | some v => jsTruthy v
  | none => false

def JsVal.isStr : JsVal → Bool
  | JsVal.str _ => true
  | _ => false

/-- `String(v)` for stored values.  The numeric case approximates JS
number formatting by the exact rational rendering; no operation of this
module ever stores a non-string `systemInstructions` field, so for
stores built by this module the case is unreachable. -/
def jsValToString : JsVal → String
  | JsVal.str s => s
  | JsVal.bool true => "true"
  | JsVal.bool false => "false"
  | JsVal.null => "null"
  | JsVal.num q => toString q

/-- A JavaScript object as an ordered field list with unique keys. -/
abbrev Fields := List (String × JsVal)

def lookupField (f : Fields) (k : String) : Option JsVal :=
  (f.find? (fun kv => decide (kv.1 = k))).map (fun kv => kv.2)

/-- Field-level `$set`: replace the field in place, or append it. -/
def setField : Fields → String → JsVal → Fields
  | [], k, v => [(k, v)]
  | kv :: rest, k, v =>
    if kv.1 = k then (k, v) :: rest else kv :: setField rest k v

def removeField : Fields → String → Fields
  | [], _ => []
  | kv :: rest, k => if kv.1 = k then removeField rest k else kv :: removeField rest k

/-- Object spread `{...base, ...overrides}`: the base keys in order with
overriding values, then the overrides' remaining keys in their order. -/
def mergeFields : Fields → Fields → Fields
  | [], u => u
  | (k, v) :: rest, u => (k, (lookupField u k).getD v) :: mergeFields rest (removeField u k)

/-- `defaultConfig` (part_000 lines 59-66). -/
def defaultConfig : Fields :=
  [("temperature", JsVal.num (9 / 10)), ("topK", JsVal.num 93),
   ("topP", JsVal.num (19 / 20)), ("maxOutputTokens", JsVal.num 1024),
   ("mediaImage", JsVal.bool true), ("mediaAudio", JsVal.bool true)]

/-- `setConfig(chatId, param, value)` (part_000 lines 763-775): nedb
update of `{chatId}` with `$set {param: value}` and upsert — update the
first matching document, or insert `{chatId, param: value}`. -/
def setConfig : List Fields → String → String → JsVal → List Fields
  | [], chatId, param, v => [[("chatId", JsVal.str chatId), (param, v)]]
  | f :: rest, chatId, param, v =>
    if lookupField f "chatId" = some (JsVal.str chatId) then setField f param v :: rest
    else f :: setConfig rest chatId param v

/-- The capture of the regex `Seu nome é (\w+)\.` anchored at the start
(part_000 line 790): the maximal word-character run after the literal
prefix, provided it is nonempty and immediately followed by a dot. -/
def seuNomeCapture (l : List Char) : Option String :=
  match dropLit "Seu nome é ".data l with
  | none => none
  | some r =>
    if (r.takeWhile isWordChar).isEmpty then none
    else
      match r.drop (r.takeWhile isWordChar).length with
      | '.' :: _ => some (String.mk (r.takeWhile isWordChar))
      | _ => none

/-- Bot-name extraction from the active instruction text, with the
`process.env.BOT_NAME || 'Amelie'` fallback. -/
def extractBotName (text : String) (fallback : String) : String :=
  match seuNomeCapture text.data with
  | some nm => nm
  | none => fallback

/-- `getSystemPrompt(chatId, config.activePrompt)` where the stored
active-prompt value need not be a string: only a string value can name a
stored prompt. -/
def getSystemPromptV (db : List Prompt) (chatId : String) : JsVal → Option Prompt
  | JsVal.str nm => getSystemPrompt db chatId nm
  | _ => none

/-- Lines 797-799 of part_000: coerce a present, truthy, non-string
`systemInstructions` value to a string. -/
def coerceSI (f : Fields) : Fields :=
  match lookupField f "systemInstructions" with
  | some v =>
    if jsTruthy v && !(v.isStr) then
      setField f "systemInstructions" (JsVal.str (jsValToString v))
    else f
  | none => f

/-- The prompt-resolution step of `getConfig`: when a truthy
`activePrompt` resolves to a stored prompt, set `systemInstructions` to
its text and `botName` to the extracted name; when `activePrompt` is
absent or falsy, set `botName` to the global default; when it is truthy
but dangling, set neither field. -/
def getConfigCore (config : Fields) (promptsDb : List Prompt) (chatId : String)
    (envBotName : Option String) : Fields :=
  if jsTruthyOpt (lookupField config "activePrompt") then
    match getSystemPromptV promptsDb chatId
        ((lookupField config "activePrompt").getD JsVal.null) with
    | some p =>
      setField (setField config "systemInstructions" (JsVal.str p.text)) "botName"
        (JsVal.str (extractBotName p.text (envBotName.getD "Amelie")))
    | none => config
  else setField config "botName" (JsVal.str (envBotName.getD "Amelie"))

/-- `getConfig(chatId)` (part_000 lines 777-805): the stored document
(or `{}` when none), merged over the static defaults, then the
prompt-resolution step and the `systemInstructions` string coercion. -/
def getConfig (configDb : List Fields) (promptsDb : List Prompt) (chatId : String)
    (envBotName : Option String) : Fields :=
  coerceSI (getConfigCore
    (mergeFields defaultConfig
      ((configDb.find? (fun f =>
        decide (lookupField f "chatId" = some (JsVal.str chatId)))).getD []))
    promptsDb chatId envBotName)

/-- `setActiveSystemPrompt(chatId, promptName)` (part_000 lines
727-742): validate existence via `getSystemPrompt`, then set
`activePrompt`; on a missing prompt return `false` with the config
store untouched. -/
def setActiveSystemPrompt (promptsDb : List Prompt) (configDb : List Fields)
    (chatId nm : String) : Bool × List Fields :=
  match getSystemPrompt promptsDb chatId nm with
  | some _ => (true, setConfig configDb chatId "activePrompt" (JsVal.str nm))
  | none => (false, configDb)

/-- `clearActiveSystemPrompt(chatId)` (part_000 lines 753-761). -/
def clearActiveSystemPrompt (configDb : List Fields) (chatId : String) : List Fields :=
  setConfig configDb chatId "activePrompt" JsVal.null

/-! ## Command layer pieces needed by the claims -/

/-- The three persistent collections together. -/
structure AppState where
  msgs : MsgStore
  prompts : List Prompt
  configs : List Fields
deriving Repr

/-- Observable actions of a handler, in chronological order. -/
inductive BotAction where
  | reply : String → BotAction
  | modelCall : String → BotAction
deriving DecidableEq, Repr

/-- `clearChatOnInstructionChange` (part_000 lines 744-751): the whole
body is commented out in the source, so the function changes nothing. -/
def clearChatOnInstructionChange (st : AppState) : AppState := st

/-- The `prompt set` branch of `handlePromptCommand` (part_000 lines
604-614): with a truthy name and a nonempty body, define the prompt (the
`clearChatOnInstructionChange` call is commented out) and reply;
otherwise reply with the usage message. -/
def promptSetCommand (st : AppState) (chatId : String) (nm : Option String)
    (rest : List String) : AppState × List BotAction :=
  -- `name && rest.length > 0`: a missing or empty name is falsy, encoded
  -- as the default-empty string being nonempty
  if nm.getD "" ≠ "" ∧ rest ≠ [] then
    ({ st with prompts :=
        setSystemPrompt st.prompts chatId (nm.getD "") (String.intercalate " " rest) },
      [BotAction.reply ("System Instruction \"" ++ nm.getD "" ++
        "\" definida com sucesso. O histórico do chat foi limpo.")])
  else (st, [BotAction.reply "Uso correto: !prompt set <nome> <texto>"])

/-! ## Lemmas about prompts and configuration -/

theorem getSystemPrompt_upsert (db : List Prompt) (p : Prompt) :
    getSystemPrompt (upsertPrompt db p) p.chatId p.name = some p := by
  induction db with
  | nil =>
    unfold upsertPrompt getSystemPrompt
    rw [List.find?_cons_of_pos _ (by simp)]
  | cons q rest ih =>
    unfold upsertPrompt
    by_cases hq : q.chatId = p.chatId ∧ q.name = p.name
    · rw [if_pos hq]
      unfold getSystemPrompt
      rw [List.find?_cons_of_pos _ (by simp)]
    · rw [if_neg hq]
      unfold getSystemPrompt at ih ⊢
      rw [List.find?_cons_of_neg _ (by simpa using hq)]
      exact ih

theorem lookupField_cons (kv : String × JsVal) (rest : Fields) (k : String) :
    lookupField (kv :: rest) k = if kv.1 = k then some kv.2 else lookupField rest k := by
  unfold lookupField
  by_cases h : kv.1 = k
  · rw [List.find?_cons_of_pos _ (by simp [h]), if_pos h]
    rfl
  · rw [List.find?_cons_of_neg _ (by simp [h]), if_neg h]

theorem lookupField_remove (u : Fields) (k k0 : String) (h : ¬ k0 = k) :
    lookupField (removeField u k0) k = lookupField u k := by
  induction u with
  | nil => rfl
  | cons kv rest ih =>
    unfold removeField
    by_cases hk : kv.1 = k0
    · rw [if_pos hk, ih, lookupField_cons, if_neg (by rw [hk]; exact h)]
    · rw [if_neg hk, lookupField_cons, lookupField_cons]
      by_cases hk2 : kv.1 = k
      · rw [if_pos hk2, if_pos hk2]
      · rw [if_neg hk2, if_neg hk2, ih]

theorem mergeFields_nil (b : Fields) : mergeFields b [] = b := by
  induction b with
  | nil => rfl
  | cons kv rest ih =>
    cases kv with
    | mk k v =>
      show (k, (lookupField [] k).getD v) :: mergeFields rest (removeField [] k) = (k, v) :: rest
      rw [show removeField [] k = [] from rfl, ih]
      rfl

theorem lookupField_merge (b u : Fields) (k : String) :
    lookupField (mergeFields b u) k
      = match lookupField b k with
        | some v => some ((lookupField u k).getD v)
        | none => lookupField u k := by
  induction b generalizing u with
  | nil => rfl
  | cons kv rest ih =>
    cases kv with
    | mk k0 v0 =>
      show lookupField ((k0, (lookupField u k0).getD v0)
          :: mergeFields rest (removeField u k0)) k = _
      rw [lookupField_cons]
      by_cases hk : k0 = k
      · subst hk
        rw [if_pos rfl]
        conv_rhs => rw [lookupField_cons, if_pos rfl]
      · rw [if_neg hk, ih (removeField u k0), lookupField_remove u k k0 hk]
        conv_rhs => rw [lookupField_cons, if_neg hk]

theorem coerceSI_of_none (f : Fields) (h : lookupField f "systemInstructions" = none) :
    coerceSI f = f := by
  unfold coerceSI
  rw [h]

theorem getConfigCore_dangling (config : Fields) (promptsDb : List Prompt) (chatId : String)
    (env : Option String) (pname : String)
    (hap : lookupField config "activePrompt" = some (JsVal.str pname))
    (hne : pname ≠ "")
    (hmiss : getSystemPrompt promptsDb chatId pname = none) :
    getConfigCore config promptsDb chatId env = config := by
  unfold getConfigCore
  rw [hap, if_pos (by simp [jsTruthyOpt, jsTruthy, hne])]
  rw [show getSystemPromptV promptsDb chatId ((some (JsVal.str pname)).getD JsVal.null)
    = none from hmiss]

/-! ## Claim theorems: prompts and configuration -/

/-- Claim C3 counterexample: the stored preamble is the Portuguese
`"Seu nome é <name>. "`, not the English `"Your name is <name>. "` the
claim asserts: at the claim's own scenario input the fetched text
differs from the claimed string. -/
theorem C3_preamble_not_english :
    (getSystemPrompt (setSystemPrompt [] "chat1" "Audiomar" "You describe images.")
        "chat1" "Audiomar").map Prompt.text
      = some "Seu nome é Audiomar. You describe images." ∧
    (some "Seu nome é Audiomar. You describe images."
      ≠ some "Your name is Audiomar. You describe images.") :=
  ⟨by decide, by decide⟩

/-- Claim C3 (amended): for every chatId, name and body, `define` then
`fetch` with the same key returns the record whose text is exactly the
preamble `"Seu nome é <name>. "` (the Portuguese preamble stored by the
source, which the claim rendered in English) followed by the original
body unmodified. -/
theorem C3_define_fetch_roundtrip (db : List Prompt) (chatId nm body : String) :
    getSystemPrompt (setSystemPrompt db chatId nm body) chatId nm
      = some ⟨chatId, nm, "Seu nome é " ++ nm ++ ". " ++ body⟩ :=
  getSystemPrompt_upsert db ⟨chatId, nm, "Seu nome é " ++ nm ++ ". " ++ body⟩

/-- Claim C6: on a chat with no stored config document, `getConfig`
returns exactly the static defaults (temperature 0.9, topK 93, topP
0.95, maxOutputTokens 1024, mediaImage true, mediaAudio true) plus
`botName` equal to the global default name, and no `systemInstructions`
field. -/
theorem C6_defaults_when_unconfigured (configDb : List Fields) (promptsDb : List Prompt)
    (chatId : String) (envBotName : Option String)
    (h : configDb.find? (fun f =>
      decide (lookupField f "chatId" = some (JsVal.str chatId))) = none) :
    getConfig configDb promptsDb chatId envBotName
      = defaultConfig ++ [("botName", JsVal.str (envBotName.getD "Amelie"))] ∧
    lookupField (getConfig configDb promptsDb chatId envBotName) "systemInstructions"
      = none := by
  have hmain : getConfig configDb promptsDb chatId envBotName
      = defaultConfig ++ [("botName", JsVal.str (envBotName.getD "Amelie"))] := by
    unfold getConfig
    rw [h]
    rfl
  refine ⟨hmain, ?_⟩
  rw [hmain]
  rfl

/-- Witness for C6 on the empty stores. -/
theorem C6_defaults_when_unconfigured_witness :
    (([] : List Fields).find? (fun f =>
        decide (lookupField f "chatId" = some (JsVal.str "chat1"))) = none) ∧
    getConfig [] [] "chat1" none
      = defaultConfig ++ [("botName", JsVal.str "Amelie")] :=
  ⟨rfl, (C6_defaults_when_unconfigured [] [] "chat1" none rfl).1⟩

/-- Claim C7: activating a prompt name with no stored record returns the
failure flag `false` (not an error) and leaves the config store — in
particular `activePrompt` — unchanged. -/
theorem C7_activate_missing_fails (promptsDb : List Prompt) (configDb : List Fields)
    (chatId nm : String) (h : getSystemPrompt promptsDb chatId nm = none) :
    setActiveSystemPrompt promptsDb configDb chatId nm = (false, configDb) := by
  unfold setActiveSystemPrompt
  rw [h]

/-- Witness for C7 on the empty stores. -/
theorem C7_activate_missing_fails_witness :
    getSystemPrompt [] "chat1" "ghost" = none ∧
      setActiveSystemPrompt [] [] "chat1" "ghost" = (false, []) :=
  ⟨rfl, C7_activate_missing_fails [] [] "chat1" "ghost" rfl⟩

/-- Claim C9: defining or redefining a prompt leaves the chat's message
history unchanged: the `prompt set` command touches only the prompts
collection; the `clearChatOnInstructionChange` call is commented out in
the source and the function's own body is commented out too, so it is
the identity on the state. -/
theorem C9_prompt_set_preserves_history (st : AppState) (chatId : String)
    (nm : Option String) (rest : List String) :
    (promptSetCommand st chatId nm rest).1.msgs = st.msgs ∧
    clearChatOnInstructionChange st = st := by
  refine ⟨?_, rfl⟩
  unfold promptSetCommand
  split
  · rfl
  · rfl

/-- Claim C10 (implicit): when the stored config's `activePrompt` names
a prompt with no stored record — and the stored document itself carries
no `botName` or `systemInstructions` field, as no operation of this
module ever stores either — `getConfig` returns a record in which both
`botName` and `systemInstructions` are absent: the global default bot
name is NOT applied on this path. -/
theorem C10_dangling_active_prompt (configDb : List Fields) (promptsDb : List Prompt)
    (chatId : String) (envBotName : Option String) (doc : Fields) (pname : String)
    (hdoc : configDb.find? (fun f =>
        decide (lookupField f "chatId" = some (JsVal.str chatId))) = some doc)
    (hap : lookupField doc "activePrompt" = some (JsVal.str pname))
    (hne : pname ≠ "")
    (hmiss : getSystemPrompt promptsDb chatId pname = none)
    (hbn : lookupField doc "botName" = none)
    (hsi : lookupField doc "systemInstructions" = none) :
    lookupField (getConfig configDb promptsDb chatId envBotName) "botName" = none ∧
    lookupField (getConfig configDb promptsDb chatId envBotName) "systemInstructions"
      = none := by
  have hap' : lookupField (mergeFields defaultConfig doc) "activePrompt"
      = some (JsVal.str pname) := by
    rw [lookupField_merge]
    exact hap
  have hbn' : lookupField (mergeFields defaultConfig doc) "botName" = none := by
    rw [lookupField_merge]
    exact hbn
  have hsi' : lookupField (mergeFields defaultConfig doc) "systemInstructions" = none := by
    rw [lookupField_merge]
    exact hsi
  have hcfg : getConfig configDb promptsDb chatId envBotName
      = mergeFields defaultConfig doc := by
    unfold getConfig
    rw [hdoc, Option.getD_some,
      getConfigCore_dangling _ promptsDb chatId envBotName pname hap' hne hmiss,
      coerceSI_of_none _ hsi']
  rw [hcfg]
  exact ⟨hbn', hsi'⟩

/-- Witness for C10 at a concrete dangling active prompt. -/
theorem C10_dangling_active_prompt_witness :
    lookupField (getConfig [[("chatId", JsVal.str "chat1"), ("activePrompt", JsVal.str "ghost")]]
        [] "chat1" none) "botName" = none ∧
    lookupField (getConfig [[("chatId", JsVal.str "chat1"), ("activePrompt", JsVal.str "ghost")]]
        [] "chat1" none) "systemInstructions" = none :=
  C10_dangling_active_prompt
    [[("chatId", JsVal.str "chat1"), ("activePrompt", JsVal.str "ghost")]] [] "chat1" none
    [("chatId", JsVal.str "chat1"), ("activePrompt", JsVal.str "ghost")] "ghost"
    (by decide) (by decide) (by decide) (by decide) (by decide) (by decide)

/-! ## Audio handler (part_000: handleAudioMessage) -/

/-- CRLF pairs become LF: `replace(/\r\n/g, '\n')`. -/
def crlfToLf : List Char → List Char
  | [] => []
  | '\r' :: '\n' :: rest => '\n' :: crlfToLf rest
  | c :: rest => c :: crlfToLf rest

/-- Remaining CRs become LF: `replace(/\r/g, '\n')`. -/
def crToLf (l : List Char) : List Char :=
  l.map (fun c => if c = '\r' then '\n' else c)

/-- Runs of three or more LFs become exactly two:
`replace(/\n{3,}/g, '\n\n')`; the accumulator counts the pending run. -/
def squeezeNl : Nat → List Char → List Char
  | k, [] => List.replicate (min k 2) '\n'
  | k, c :: rest =>
    if c = '\n' then squeezeNl (k + 1) rest
    else List.replicate (min k 2) '\n' ++ (c :: squeezeNl 0 rest)

/-- The text `sendMessage` (part_000 lines 807-828) actually replies
with: blank or empty text is replaced by the fixed error string (which
the subsequent normalisation leaves unchanged); otherwise the text is
trimmed and its newlines normalised. -/
def sendMessageText (text : String) : String :=
  if (trimChars text.data).isEmpty then
    "Desculpe, ocorreu um erro ao gerar a resposta. Por favor, tente novamente."
  else String.mk (squeezeNl 0 (crToLf (crlfToLf (trimChars text.data))))

/-- String interpolation of a possibly missing config field, as in the
template that passes `userConfig.botName` as the bot sender name. -/
def jsFieldString (f : Fields) (k : String) : String :=
  match lookupField f k with
  | some v => jsValToString v
  | none => "undefined"

/-- `handleAudioMessage(msg, audioData, chatId)` (part_000 lines
333-406): return silently when `mediaAudio` is disabled; reject
payloads over 20 MB with the size-limit reply (the JS float division of
the byte length by 2^20 is exact, so the test is the rational
comparison); otherwise call the model on the history-plus-audio prompt —
the external reply text is the `oracle` argument, and the `audioMime`
argument only selects a log line in the source — send the normalised
reply, and append the `[Áudio]` marker and the reply to the history. -/
def handleAudioMessage (maxHistory : Nat) (envBotName : Option String) (st : AppState)
    (chatId author : String) (_audioMime : String) (audioLen : Nat) (oracle : String) :
    AppState × List BotAction :=
  let config := getConfig st.configs st.prompts chatId envBotName
  if !(jsTruthyOpt (lookupField config "mediaAudio")) then (st, [])
  else if 20 < (audioLen : Rat) / (1024 * 1024) then
    (st, [BotAction.reply "Desculpe, só posso processar áudios de até 20MB."])
  else
    let history := getMessageHistory st.msgs.db chatId maxHistory
    let promptText := "Histórico da conversa:\n" ++ String.intercalate "\n" history ++
      "\n\nAgora, considerando este histórico e o áudio fornecido, por favor, transcreva o áudio e depois resuma o conteúdo em português."
    let response := oracle
    let msgs1 := updateMessageHistory maxHistory st.msgs chatId author "[Áudio]" false
    let msgs2 := updateMessageHistory maxHistory msgs1 chatId
      (jsFieldString config "botName") response true
    ({ st with msgs := msgs2 },
      [BotAction.modelCall promptText, BotAction.reply (sendMessageText response)])

/-- Claim C8: an inbound audio message in a chat with `mediaAudio`
enabled whose payload exceeds 20 MB is answered with the size-limit
reply only: the handler returns with the state unchanged (no history
mutation) and performs no model call. -/
theorem C8_audio_size_guard (maxHistory : Nat) (envBotName : Option String) (st : AppState)
    (chatId author audioMime : String) (audioLen : Nat) (oracle : String)
    (hEnabled : jsTruthyOpt (lookupField
        (getConfig st.configs st.prompts chatId envBotName) "mediaAudio") = true)
    (hSize : 20 * 1024 * 1024 < audioLen) :
    handleAudioMessage maxHistory envBotName st chatId author audioMime audioLen oracle
      = (st, [BotAction.reply "Desculpe, só posso processar áudios de até 20MB."]) := by
  have h2 : (20 : Rat) < (audioLen : Rat) / (1024 * 1024) := by
    rw [lt_div_iff₀ (by norm_num)]
    have hc : ((20 * 1024 * 1024 : Nat) : Rat) < ((audioLen : Nat) : Rat) :=
      Nat.cast_lt.mpr hSize
    calc (20 : Rat) * (1024 * 1024) = ((20 * 1024 * 1024 : Nat) : Rat) := by norm_num
      _ < _ := hc
  unfold handleAudioMessage
  simp only [hEnabled, h2, Bool.not_true, Bool.false_eq_true, if_false, if_true]

/-- Witness for C8 at a 21 MB payload against the default config. -/
theorem C8_audio_size_guard_witness :
    (jsTruthyOpt (lookupField (getConfig [] [] "chat1" none) "mediaAudio") = true) ∧
    handleAudioMessage 500 none ⟨⟨[], 0⟩, [], []⟩ "chat1" "user1" "audio/mpeg" 22020096 "oi"
      = (⟨⟨[], 0⟩, [], []⟩,
          [BotAction.reply "Desculpe, só posso processar áudios de até 20MB."]) :=
  ⟨by decide, C8_audio_size_guard 500 none ⟨⟨[], 0⟩, [], []⟩ "chat1" "user1" "audio/mpeg"
    22020096 "oi" (by decide) (by decide)⟩

end Amelie
